import Mathlib

/-!
Verification of the DataDiver crawler (src/datadiver.py) against its
natural-language specification.  The Python source is shallowly embedded:
pure helpers become Lean functions on `String`/`List`, the crawl loop of
`crawl_site` becomes explicit state passing over `CrawlState`, and the
network is an oracle parameter.
-/

namespace DataDiver

/-- Model of Python's `str.lower()` as used on URLs: lowercase each character
(`Char.toLower` covers the basic-latin range the crawler's URLs use). -/
def strLower (s : String) : String :=
  String.mk (s.data.map Char.toLower)

/-- Test whether `n` is an initial segment of `h`: `startsWithList n h` is true when `n` is an initial segment of `h`.
Auxiliary for the model of Python's `in` operator on strings. -/
def startsWithList : List Char → List Char → Bool
  | [], _ => true
  | _ :: _, [] => false
  | a :: as, b :: bs => a == b && startsWithList as bs

/-- Test whether `n` occurs contiguously inside `h`. -/
def hasSubList (needle : List Char) : List Char → Bool
  | [] => startsWithList needle []
  | c :: rest => startsWithList needle (c :: rest) || hasSubList needle rest

/-- Model of Python's `needle in hay` substring test. -/
def substrB (needle hay : String) : Bool :=
  hasSubList needle.data hay.data

/-- The `EXCLUDED_EXTENSIONS` frozenset from src/datadiver.py (order irrelevant). -/
def EXCLUDED_EXTENSIONS : List String :=
  ["png", "jpg", "jpeg", "gif", "webp", "svg", "ico", "bmp",
   "pdf", "doc", "docx", "xls", "xlsx", "ppt", "pptx",
   "zip", "rar", "7z", "tar", "gz",
   "mp3", "mp4", "avi", "mov", "wmv", "flv",
   "css", "js", "woff", "woff2", "ttf", "eot"]

/-- The `EXCLUDED_PATHS` frozenset from src/datadiver.py (order irrelevant). -/
def EXCLUDED_PATHS : List String :=
  ["cart", "checkout", "search", "login", "logout", "register",
   "terms-of-service", "privacy-policy", "wp-admin", "wp-login",
   "feed", "xmlrpc", "wp-json", "api"]

/-- The literal alternatives of the `PAGINATION_PATTERNS` regex in
src/datadiver.py; every alternative is a plain string, so with
`re.IGNORECASE` the regex matches iff one of them occurs in the
lowercased link. -/
def PAGINATION_LITERALS : List String :=
  ["?page=", "?p=", "?pg=", "?pagenumber=", "?start=", "?offset=",
   "/page/", "/p/", "/pages/", "#page="]

/-- Structure `PageData` from src/datadiver.py. -/
structure PageData where
  url : String
  status_code : Nat
  title : String
  meta_description : String
  h1_tags : List String
  h2_tags : List String
deriving DecidableEq

/-- Structure `CrawlStats` from src/datadiver.py. -/
structure CrawlStats where
  pages_crawled : Nat
  pages_failed : Nat
  pages_filtered : Nat
  total_links_found : Nat
deriving DecidableEq

/-- Function `normalize_url` from src/datadiver.py: `url.lower().rstrip("/")`,
i.e. lowercase, then drop every trailing `'/'`. -/
def normalize_url (url : String) : String :=
  String.mk (((strLower url).data.reverse.dropWhile (fun c => c == '/')).reverse)

/-- The specification's reading of `normalize` (claim C7): lowercase the URL
and strip a single trailing path separator. -/
def normalizeSingleStrip (url : String) : String :=
  let l := strLower url
  if l.data.getLast? = some '/' then String.mk l.data.dropLast else l

/-- Split a character list at the first `"://"`, returning the part before it
and the part after.  Auxiliary for the model of `urllib.parse.urlparse`. -/
def splitScheme : List Char → Option (List Char × List Char)
  | [] => none
  | ':' :: '/' :: '/' :: rest => some ([], rest)
  | c :: rest =>
    match splitScheme rest with
    | some (s, r) => some (c :: s, r)
    | none => none

/-- Take characters until one of `delims` is hit. -/
def takeUntilDelims (delims : List Char) : List Char → List Char
  | [] => []
  | c :: rest => if c ∈ delims then [] else c :: takeUntilDelims delims rest

/-- Function `get_domain` from src/datadiver.py: `f"{parsed.scheme}://{parsed.netloc}"`.
The external `urllib.parse.urlparse` is modelled for URLs of the shape
`scheme://netloc/...`: the scheme is everything before the first `"://"` and
the netloc runs to the next `/`, `?` or `#`; a URL with no `"://"` has empty
scheme and netloc. -/
def get_domain (url : String) : String :=
  match splitScheme url.data with
  | some (scheme, rest) =>
    String.mk scheme ++ "://" ++ String.mk (takeUntilDelims ['/', '?', '#'] rest)
  | none => "://"

/-- Model of the `PAGINATION_PATTERNS` regex search from src/datadiver.py, as a Bool. -/
def paginationSearch (link : String) : Bool :=
  PAGINATION_LITERALS.any (fun p => substrB p (strLower link))

/-- Function `is_valid_link` from src/datadiver.py. -/
def is_valid_link (link : String) (domain : String) : Bool :=
  if get_domain link ≠ domain then false
  else if substrB "#" link || substrB "?" link then false
  else if paginationSearch link then false
  else
    let link_lower := strLower link
    if EXCLUDED_EXTENSIONS.any (fun ext => substrB ("." ++ ext) link_lower) then false
    else if EXCLUDED_PATHS.any (fun p => substrB p link_lower) then false
    else true

/-- One `<meta>` tag of the parsed document: its `name` attribute and its
optional `content` attribute. -/
structure MetaTag where
  name : String
  content : Option String
deriving DecidableEq

/-- Model of the parsed HTML document that BeautifulSoup hands to
`fetch_page`: the `<title>` string when the tag exists and has one, the meta
tags, the `h1`/`h2` texts in document order, and the `href` values of the
anchors in document order. -/
structure Soup where
  title : Option String
  metas : List MetaTag
  h1_texts : List String
  h2_texts : List String
  hrefs : List String
deriving DecidableEq

/-- One HTTP response as seen by `fetch_page`: status code, the
`content-type` header value, and the parsed body. -/
structure HttpResponse where
  status_code : Nat
  content_type : String
  soup : Soup
deriving DecidableEq

/-- Model of the meta-tag lookup in `fetch_page` (the `soup.find` call for
the description tag): the first meta tag with the given `name` attribute. -/
def findMeta (metas : List MetaTag) (n : String) : Option MetaTag :=
  metas.find? (fun m => m.name == n)

/-- Function `fetch_page` from src/datadiver.py.  The network call is the
`response` argument (`none` models an `httpx.HTTPError` or other exception,
i.e. a transport-level failure); `resolve url href` models
`urljoin(url, href)` from the standard library. -/
def fetch_page (resolve : String → String → String) (url : String) (domain : String)
    (response : Option HttpResponse) : Option PageData × List String :=
  match response with
  | none => (none, [])
  | some r =>
    if substrB "text/html" r.content_type then
      let title :=
        match r.soup.title with
        | some t => t.trim
        | none => ""
      let meta_description :=
        match findMeta r.soup.metas "description" with
        | some m =>
          match m.content with
          | some c => if c = "" then "" else c.trim
          | none => ""
        | none => ""
      let links := (r.soup.hrefs.map (fun href => normalize_url (resolve url href))).filter
        (fun l => is_valid_link l domain)
      (some { url := url, status_code := r.status_code, title := title,
              meta_description := meta_description,
              h1_tags := r.soup.h1_texts.map String.trim,
              h2_tags := r.soup.h2_texts.map String.trim }, links)
    else (none, [])

/-- The working state of `crawl_site`'s batch loop. -/
structure CrawlState where
  visited : List String
  to_visit : List String
  results : List PageData
  stats : CrawlStats
deriving DecidableEq

/-- The state `crawl_site` starts from: empty `visited`, the seed alone in
`to_visit`, no results, zeroed stats.  Python sets are modelled as
duplicate-free lists. -/
def initState (start_url : String) : CrawlState :=
  { visited := [], to_visit := [start_url], results := [],
    stats := { pages_crawled := 0, pages_failed := 0,
               pages_filtered := 0, total_links_found := 0 } }

/-- The inner batch-building loop of `crawl_site`:
`while to_visit and len(batch) < concurrency: url = to_visit.pop(); if url
not in visited: visited.add(url); batch.add(url)`.  Arguments are the current
`to_visit`, `visited` and `batch`; the result is the triple after the loop.
The pop order is the list order (the caller quantifies over permutations to
recover the unordered-set nondeterminism). -/
def selectBatch (concurrency : Nat) : List String → List String → List String →
    List String × List String × List String
  | [], visited, batch => ([], visited, batch)
  | url :: rest, visited, batch =>
    if batch.length < concurrency then
      if url ∈ visited then
        selectBatch concurrency rest visited batch
      else
        selectBatch concurrency rest (url :: visited) (batch ++ [url])
    else (url :: rest, visited, batch)

/-- One iteration of the link loop in `crawl_site`'s reduce step:
`if link not in visited and len(to_visit) + len(visited) < max_pages * 2:
to_visit.add(link)`. -/
def addLink (max_pages : Nat) (visited : List String) (to_visit : List String)
    (link : String) : List String :=
  if link ∉ visited ∧ to_visit.length + visited.length < max_pages * 2 then
    if link ∈ to_visit then to_visit else to_visit ++ [link]
  else to_visit

/-- Handling of one `(page_data, links)` element of `responses` in
`crawl_site`'s reduce loop. -/
def processResponse (max_pages : Nat) (s : CrawlState)
    (resp : Option PageData × List String) : CrawlState :=
  match resp with
  | (some page_data, links) =>
    { s with
      results := s.results ++ [page_data],
      stats := { s.stats with
        pages_crawled := s.stats.pages_crawled + 1,
        total_links_found := s.stats.total_links_found + links.length },
      to_visit := links.foldl (addLink max_pages s.visited) s.to_visit }
  | (none, _) =>
    { s with stats := { s.stats with pages_filtered := s.stats.pages_filtered + 1 } }

/-- One iteration of the outer `while` loop of `crawl_site` (batch select,
concurrent dispatch, reduce), for a fixed pop order.  `fetch url` is the
outcome of `fetch_page` for `url`; `none` is returned when the built batch is
empty, which makes the Python loop `break`. -/
def batchStep (fetch : String → Option PageData × List String)
    (max_pages concurrency : Nat) (s : CrawlState) : Option CrawlState :=
  match selectBatch concurrency s.to_visit s.visited [] with
  | (tv, vis, batch) =>
    if batch.isEmpty then none
    else some ((batch.map fetch).foldl (processResponse max_pages)
      { s with to_visit := tv, visited := vis })

/-- The outer `while to_visit and stats.pages_crawled < max_pages` loop of
`crawl_site`, fuelled; `crawl_site` runs it with fuel `max_pages * 2`, which
is proved sufficient below. -/
def crawlLoop (fetch : String → Option PageData × List String)
    (max_pages concurrency : Nat) : Nat → CrawlState → CrawlState
  | 0, s => s
  | fuel + 1, s =>
    if s.to_visit ≠ [] ∧ s.stats.pages_crawled < max_pages then
      match batchStep fetch max_pages concurrency s with
      | none => s
      | some t => crawlLoop fetch max_pages concurrency fuel t
    else s

/-- Function `crawl_site` from src/datadiver.py: run the batch loop from the seeded
state and return `(results, stats)`.  The HTTP client, the timeout and the
domain argument of `fetch_page` are absorbed into the `fetch` oracle. -/
def crawl_site (fetch : String → Option PageData × List String)
    (start_url : String) (max_pages concurrency : Nat) :
    List PageData × CrawlStats :=
  let s := crawlLoop fetch max_pages concurrency (max_pages * 2) (initState start_url)
  (s.results, s.stats)

/-- The run-level failure test of the `crawl` command in src/datadiver.py:
`if not results: raise typer.Exit(1)`. -/
def crawl_run_fails (out : List PageData × CrawlStats) : Bool :=
  out.1.isEmpty

/-- One nondeterministic iteration of `crawl_site`'s outer loop: some
permutation `l` of `to_visit` fixes the order of the set pops, the batch is
built by `selectBatch`, and the responses are reduced in some permutation
`b2` of the batch (completed fetches may be folded in any order). -/
inductive Step (fetch : String → Option PageData × List String)
    (max_pages concurrency : Nat) : CrawlState → CrawlState → Prop where
  | mk (s : CrawlState) (l b2 tv vis batch : List String) :
      l.Perm s.to_visit →
      selectBatch concurrency l s.visited [] = (tv, vis, batch) →
      b2.Perm batch → batch ≠ [] →
      Step fetch max_pages concurrency s
        ((b2.map fetch).foldl (processResponse max_pages)
          { s with to_visit := tv, visited := vis })

/-- The states `crawl_site`'s loop can observe, starting from `s`: reflexive
closure of `Step` under the loop guard `to_visit ≠ ∅ ∧ pages_crawled <
max_pages`. -/
inductive Reaches (fetch : String → Option PageData × List String)
    (max_pages concurrency : Nat) : CrawlState → CrawlState → Prop where
  | refl (s : CrawlState) : Reaches fetch max_pages concurrency s s
  | step {s t u : CrawlState} :
      Reaches fetch max_pages concurrency s t →
      t.to_visit ≠ [] →
      t.stats.pages_crawled < max_pages →
      Step fetch max_pages concurrency t u →
      Reaches fetch max_pages concurrency s u

/-- A state on which `crawl_site`'s loop makes no further progress: the guard
fails or the batch comes up empty. -/
def isTerminal (fetch : String → Option PageData × List String)
    (max_pages concurrency : Nat) (s : CrawlState) : Prop :=
  s.to_visit = [] ∨ max_pages ≤ s.stats.pages_crawled ∨
    batchStep fetch max_pages concurrency s = none

/-- A concrete three-page site: the seed `"a"` links to `"b"` and `"c"`,
which are leaves; every fetch succeeds.  Used to exhibit the final batch
overshooting the page budget. -/
def branchingFetch (u : String) : Option PageData × List String :=
  if u = "a" then (some ⟨"a", 200, "", "", [], []⟩, ["b", "c"])
  else if u = "b" then (some ⟨"b", 200, "", "", [], []⟩, [])
  else if u = "c" then (some ⟨"c", 200, "", "", [], []⟩, [])
  else (none, [])

/-- Length accounting of the batch-building loop, valid for any inputs:
the frontier-plus-visited total never grows, each batched URL is mirrored
into `visited`, and the batch never exceeds `concurrency` (nor shrinks). -/
lemma selectBatch_len (c : Nat) : ∀ (tv vis b : List String),
    (selectBatch c tv vis b).1.length + (selectBatch c tv vis b).2.1.length
        ≤ tv.length + vis.length ∧
    (selectBatch c tv vis b).2.1.length + b.length
        = vis.length + (selectBatch c tv vis b).2.2.length ∧
    (selectBatch c tv vis b).2.2.length ≤ max b.length c ∧
    b.length ≤ (selectBatch c tv vis b).2.2.length := by
  intro tv
  induction tv with
  | nil =>
    intro vis b
    simp [selectBatch]
  | cons u rest ih =>
    intro vis b
    by_cases hb : b.length < c
    · by_cases hv : u ∈ vis
      · have h := ih vis b
        simp only [selectBatch, if_pos hb, if_pos hv]
        simp only [List.length_cons]
        omega
      · have h := ih (u :: vis) (b ++ [u])
        simp only [selectBatch, if_pos hb, if_neg hv]
        simp only [List.length_cons, List.length_append, List.length_nil] at h ⊢
        omega
    · simp [selectBatch, if_neg hb]

/-- Structural facts about the batch-building loop under the frontier
invariants: no-duplicate lists stay duplicate-free, the visited set stays
disjoint from the remaining frontier, the batch is drawn from `visited`,
and a nonempty frontier with batch room yields a strictly larger batch. -/
lemma selectBatch_main (c : Nat) : ∀ (tv vis b tv' vis' b' : List String),
    selectBatch c tv vis b = (tv', vis', b') →
    tv.Nodup → vis.Nodup → b.Nodup →
    (∀ u ∈ vis, u ∉ tv) → (∀ u ∈ b, u ∈ vis) →
    tv'.Nodup ∧ vis'.Nodup ∧ b'.Nodup ∧
      (∀ u ∈ vis', u ∉ tv') ∧ (∀ u ∈ b', u ∈ vis') ∧
      (tv ≠ [] → b.length < c → b.length < b'.length) := by
  intro tv
  induction tv with
  | nil =>
    intro vis b tv' vis' b' heq h1 h2 h3 h4 h5
    simp only [selectBatch, Prod.mk.injEq] at heq
    obtain ⟨e1, e2, e3⟩ := heq
    subst e1; subst e2; subst e3
    refine ⟨List.nodup_nil, h2, h3, ?_, h5, ?_⟩
    · intro u _
      exact List.not_mem_nil u
    · intro hne
      exact absurd rfl hne
  | cons u rest ih =>
    intro vis b tv' vis' b' heq h1 h2 h3 h4 h5
    by_cases hb : b.length < c
    · have hv : u ∉ vis := fun hv => (h4 u hv) (List.mem_cons_self u rest)
      simp only [selectBatch, if_pos hb, if_neg hv] at heq
      have hub : u ∉ b := fun hub => hv (h5 u hub)
      have hrest : rest.Nodup := (List.nodup_cons.mp h1).2
      have hvis' : (u :: vis).Nodup := List.nodup_cons.mpr ⟨hv, h2⟩
      have hbatch' : (b ++ [u]).Nodup := by
        refine h3.append (List.nodup_singleton u) ?_
        intro y hy hy'
        rw [List.mem_singleton] at hy'
        subst hy'
        exact hub hy
      have hdisj' : ∀ x ∈ u :: vis, x ∉ rest := by
        intro x hx
        rcases List.mem_cons.mp hx with rfl | hx'
        · exact (List.nodup_cons.mp h1).1
        · intro hr
          exact h4 x hx' (List.mem_cons_of_mem u hr)
      have hsub' : ∀ x ∈ b ++ [u], x ∈ u :: vis := by
        intro x hx
        rcases List.mem_append.mp hx with hx' | hx'
        · exact List.mem_cons_of_mem u (h5 x hx')
        · rw [List.mem_singleton] at hx'
          rw [hx']
          exact List.mem_cons_self u vis
      obtain ⟨g1, g2, g3, g4, g5, _⟩ :=
        ih (u :: vis) (b ++ [u]) tv' vis' b' heq hrest hvis' hbatch' hdisj' hsub'
      refine ⟨g1, g2, g3, g4, g5, ?_⟩
      intro _ _
      have hlen := (selectBatch_len c rest (u :: vis) (b ++ [u])).2.2.2
      rw [heq] at hlen
      simp only [List.length_append, List.length_cons, List.length_nil] at hlen
      omega
    · simp only [selectBatch, if_neg hb, Prod.mk.injEq] at heq
      obtain ⟨e1, e2, e3⟩ := heq
      subst e1; subst e2; subst e3
      exact ⟨h1, h2, h3, h4, h5, fun _ hlt => absurd hlt hb⟩

/-- The guard of the frontier add: either the frontier is unchanged, or the
link was genuinely new and the cap had room. -/
lemma addLink_cases (mp : Nat) (vis tv : List String) (link : String) :
    addLink mp vis tv link = tv ∨
      (addLink mp vis tv link = tv ++ [link] ∧ link ∉ vis ∧ link ∉ tv ∧
        tv.length + vis.length < mp * 2) := by
  unfold addLink
  split
  · next h =>
    split
    · exact Or.inl rfl
    · next h2 => exact Or.inr ⟨rfl, h.1, h2, h.2⟩
  · exact Or.inl rfl

/-- Once the frontier cap `|to_visit| + |visited| < max_pages * 2` fails, no
link is added. -/
lemma addLink_cap (mp : Nat) (vis tv : List String) (link : String)
    (h : mp * 2 ≤ tv.length + vis.length) : addLink mp vis tv link = tv := by
  unfold addLink
  rw [if_neg]
  intro hc
  exact absurd hc.2 (not_lt.mpr h)

/-- Folding the frontier add over a page's links preserves duplicate-freeness
and disjointness from `visited`, respects the frontier cap, and never removes
URLs. -/
lemma addLinks_spec (mp : Nat) (vis : List String) :
    ∀ (links tv : List String),
      (tv.Nodup → (links.foldl (addLink mp vis) tv).Nodup) ∧
      ((∀ u ∈ vis, u ∉ tv) → ∀ u ∈ vis, u ∉ links.foldl (addLink mp vis) tv) ∧
      (links.foldl (addLink mp vis) tv).length + vis.length
          ≤ max (tv.length + vis.length) (mp * 2) ∧
      tv.length ≤ (links.foldl (addLink mp vis) tv).length := by
  intro links
  induction links with
  | nil =>
    intro tv
    simp only [List.foldl_nil]
    exact ⟨id, fun h => h, le_max_left _ _, le_refl _⟩
  | cons x xs ih =>
    intro tv
    rw [List.foldl_cons]
    rcases addLink_cases mp vis tv x with hc | ⟨hc, hx1, hx2, hlen⟩
    · rw [hc]
      exact ih tv
    · rw [hc]
      obtain ⟨i1, i2, i3, i4⟩ := ih (tv ++ [x])
      refine ⟨?_, ?_, ?_, ?_⟩
      · intro hnd
        apply i1
        refine hnd.append (List.nodup_singleton x) ?_
        intro y hy hy'
        rw [List.mem_singleton] at hy'
        subst hy'
        exact hx2 hy
      · intro hdisj u hu
        refine i2 ?_ u hu
        intro v hv
        rw [List.mem_append, List.mem_singleton]
        rintro (h | rfl)
        · exact hdisj v hv h
        · exact hx1 hv
      · simp only [List.length_append, List.length_cons, List.length_nil] at i3 ⊢
        omega
      · simp only [List.length_append, List.length_cons, List.length_nil] at i4
        omega

/-- Once the frontier cap fails, a whole link list adds nothing. -/
lemma addLinks_cap (mp : Nat) (vis : List String) :
    ∀ (links tv : List String), mp * 2 ≤ tv.length + vis.length →
      links.foldl (addLink mp vis) tv = tv := by
  intro links
  induction links with
  | nil =>
    intro tv _
    rfl
  | cons x xs ih =>
    intro tv h
    rw [List.foldl_cons, addLink_cap mp vis tv x h]
    exact ih tv h

/-- Effect of reducing one fetch result: `visited` and `pages_failed` are
untouched, exactly one of `pages_crawled`/`pages_filtered` grows by one, a
result record is appended exactly when `pages_crawled` grows, and the
frontier obeys the nodup/disjointness/cap facts of `addLink`. -/
lemma processResponse_spec (mp : Nat) (s : CrawlState)
    (r : Option PageData × List String) :
    (processResponse mp s r).visited = s.visited ∧
    (processResponse mp s r).stats.pages_failed = s.stats.pages_failed ∧
    (processResponse mp s r).stats.pages_crawled +
        (processResponse mp s r).stats.pages_filtered
      = s.stats.pages_crawled + s.stats.pages_filtered + 1 ∧
    (processResponse mp s r).stats.pages_crawled ≤ s.stats.pages_crawled + 1 ∧
    (processResponse mp s r).results.length + s.stats.pages_crawled
      = s.results.length + (processResponse mp s r).stats.pages_crawled ∧
    (s.to_visit.Nodup → (processResponse mp s r).to_visit.Nodup) ∧
    ((∀ u ∈ s.visited, u ∉ s.to_visit) →
      ∀ u ∈ s.visited, u ∉ (processResponse mp s r).to_visit) ∧
    (processResponse mp s r).to_visit.length + s.visited.length
      ≤ max (s.to_visit.length + s.visited.length) (mp * 2) := by
  obtain ⟨op, links⟩ := r
  cases op with
  | none =>
    refine ⟨rfl, rfl, ?_, ?_, rfl, fun h => h, fun h => h, le_max_left _ _⟩
    · show s.stats.pages_crawled + (s.stats.pages_filtered + 1)
        = s.stats.pages_crawled + s.stats.pages_filtered + 1
      omega
    · show s.stats.pages_crawled ≤ s.stats.pages_crawled + 1
      omega
  | some page_data =>
    obtain ⟨a1, a2, a3, a4⟩ := addLinks_spec mp s.visited links s.to_visit
    refine ⟨rfl, rfl, ?_, ?_, ?_, a1, a2, a3⟩
    · show s.stats.pages_crawled + 1 + s.stats.pages_filtered
        = s.stats.pages_crawled + s.stats.pages_filtered + 1
      omega
    · show s.stats.pages_crawled + 1 ≤ s.stats.pages_crawled + 1
      omega
    · show (s.results ++ [page_data]).length + s.stats.pages_crawled
        = s.results.length + (s.stats.pages_crawled + 1)
      simp only [List.length_append, List.length_cons, List.length_nil]
      omega

/-- Lemma `processResponse_spec` folded over a whole batch of responses. -/
lemma reduceFold_spec (mp : Nat) :
    ∀ (rs : List (Option PageData × List String)) (s : CrawlState),
      (rs.foldl (processResponse mp) s).visited = s.visited ∧
      (rs.foldl (processResponse mp) s).stats.pages_failed
          = s.stats.pages_failed ∧
      (rs.foldl (processResponse mp) s).stats.pages_crawled +
          (rs.foldl (processResponse mp) s).stats.pages_filtered
        = s.stats.pages_crawled + s.stats.pages_filtered + rs.length ∧
      (rs.foldl (processResponse mp) s).stats.pages_crawled
          ≤ s.stats.pages_crawled + rs.length ∧
      (rs.foldl (processResponse mp) s).results.length + s.stats.pages_crawled
        = s.results.length + (rs.foldl (processResponse mp) s).stats.pages_crawled ∧
      (s.to_visit.Nodup → (rs.foldl (processResponse mp) s).to_visit.Nodup) ∧
      ((∀ u ∈ s.visited, u ∉ s.to_visit) →
        ∀ u ∈ s.visited, u ∉ (rs.foldl (processResponse mp) s).to_visit) ∧
      (rs.foldl (processResponse mp) s).to_visit.length + s.visited.length
        ≤ max (s.to_visit.length + s.visited.length) (mp * 2) := by
  intro rs
  induction rs with
  | nil =>
    intro s
    refine ⟨rfl, rfl, ?_, ?_, rfl, fun h => h, fun h => h, le_max_left _ _⟩
    · show s.stats.pages_crawled + s.stats.pages_filtered
        = s.stats.pages_crawled + s.stats.pages_filtered +
          ([] : List (Option PageData × List String)).length
      simp
    · show s.stats.pages_crawled ≤ s.stats.pages_crawled +
          ([] : List (Option PageData × List String)).length
      simp
  | cons r rs ih =>
    intro s
    rw [List.foldl_cons]
    obtain ⟨p1, p2, p3, p4, p5, p6, p7, p8⟩ := processResponse_spec mp s r
    obtain ⟨i1, i2, i3, i4, i5, i6, i7, i8⟩ := ih (processResponse mp s r)
    rw [p1] at i1 i7 i8
    refine ⟨i1, by rw [i2, p2], ?_, ?_, ?_, fun h => i6 (p6 h), fun h => i7 (p7 h), ?_⟩
    · simp only [List.length_cons]
      omega
    · simp only [List.length_cons]
      omega
    · omega
    · omega

/-- The inductive invariant of `crawl_site`'s loop, holding at every batch
boundary: both working sets are duplicate-free and disjoint, their total size
respects the frontier cap (the singleton seed allows the `max` with 1),
the result list tracks `pages_crawled` exactly, `pages_failed` is never
touched, and every dispatched URL was counted either crawled or filtered. -/
structure CrawlInv (max_pages : Nat) (s : CrawlState) : Prop where
  nodupV : s.visited.Nodup
  nodupT : s.to_visit.Nodup
  disj : ∀ u ∈ s.visited, u ∉ s.to_visit
  sumBound : s.to_visit.length + s.visited.length ≤ max 1 (max_pages * 2)
  resLen : s.results.length = s.stats.pages_crawled
  failedZero : s.stats.pages_failed = 0
  counts : s.stats.pages_crawled + s.stats.pages_filtered = s.visited.length

/-- The invariant holds at the seeded initial state. -/
lemma initState_inv (max_pages : Nat) (u : String) :
    CrawlInv max_pages (initState u) := by
  refine ⟨List.nodup_nil, List.nodup_singleton u, ?_, ?_, rfl, rfl, rfl⟩
  · intro v hv
    exact absurd hv (List.not_mem_nil v)
  · simp [initState]

/-- Every loop iteration preserves the invariant, for any pop order and any
reduce order. -/
lemma step_inv {fetch : String → Option PageData × List String}
    {mp c : Nat} {s t : CrawlState}
    (hs : CrawlInv mp s) (h : Step fetch mp c s t) : CrawlInv mp t := by
  obtain ⟨l, b2, tv, vis, batch, hperm, hsel, hbperm, hbne⟩ := h
  have hlnd : l.Nodup := hperm.nodup_iff.mpr hs.nodupT
  have hldisj : ∀ u ∈ s.visited, u ∉ l := by
    intro u hu hul
    exact hs.disj u hu (hperm.mem_iff.mp hul)
  obtain ⟨m1, m2, m3, m4, m5, _⟩ :=
    selectBatch_main c l s.visited [] tv vis batch hsel hlnd hs.nodupV
      List.nodup_nil hldisj (fun u hu => absurd hu (List.not_mem_nil u))
  have hlen := selectBatch_len c l s.visited []
  rw [hsel] at hlen
  simp only [List.length_nil] at hlen
  obtain ⟨hl1, hl2, _, _⟩ := hlen
  have hlperm : l.length = s.to_visit.length := hperm.length_eq
  obtain ⟨f1, f2, f3, f4, f5, f6, f7, f8⟩ :=
    reduceFold_spec mp (b2.map fetch) { s with to_visit := tv, visited := vis }
  have e1 : ({ s with to_visit := tv, visited := vis } : CrawlState).visited = vis := rfl
  have e2 : ({ s with to_visit := tv, visited := vis } : CrawlState).to_visit = tv := rfl
  have e3 : ({ s with to_visit := tv, visited := vis } : CrawlState).stats = s.stats := rfl
  have e4 : ({ s with to_visit := tv, visited := vis } : CrawlState).results = s.results := rfl
  rw [e1] at f1
  rw [e3] at f2 f3 f4
  rw [e4, e3] at f5
  rw [e2] at f6
  rw [e1, e2] at f7
  rw [e1, e2] at f8
  have hrslen : (b2.map fetch).length = batch.length := by
    rw [List.length_map]
    exact hbperm.length_eq
  rw [hrslen] at f3 f4
  refine ⟨?_, ?_, ?_, ?_, ?_, ?_, ?_⟩
  · rw [f1]
    exact m2
  · exact f6 m1
  · rw [f1]
    exact f7 m4
  · rw [f1]
    have hsum := hs.sumBound
    omega
  · have hres := hs.resLen
    omega
  · rw [f2]
    exact hs.failedZero
  · rw [f1]
    have hcounts := hs.counts
    omega

/-- The deterministic iteration used by `crawlLoop` is an instance of the
nondeterministic `Step` (identity permutations). -/
lemma batchStep_some_step {fetch : String → Option PageData × List String}
    {mp c : Nat} {s t : CrawlState}
    (h : batchStep fetch mp c s = some t) : Step fetch mp c s t := by
  unfold batchStep at h
  rcases hsel : selectBatch c s.to_visit s.visited [] with ⟨tv, vis, batch⟩
  rw [hsel] at h
  dsimp only at h
  by_cases hbe : batch.isEmpty
  · rw [if_pos hbe] at h
    exact absurd h (by simp)
  · rw [if_neg hbe] at h
    have ht := Option.some.inj h
    rw [← ht]
    exact Step.mk s s.to_visit batch tv vis batch (List.Perm.refl _) hsel
      (List.Perm.refl _) (by simpa [List.isEmpty_iff] using hbe)

/-- A successful `batchStep` strictly grows `visited` (each batched URL is
moved into it), with no hypotheses on the state. -/
lemma step_visited_lt {fetch : String → Option PageData × List String}
    {mp c : Nat} {s t : CrawlState}
    (h : Step fetch mp c s t) : s.visited.length < t.visited.length := by
  obtain ⟨l, b2, tv, vis, batch, hperm, hsel, hbperm, hbne⟩ := h
  have hlen := selectBatch_len c l s.visited []
  rw [hsel] at hlen
  simp only [List.length_nil] at hlen
  have f1 := (reduceFold_spec mp (b2.map fetch)
    { s with to_visit := tv, visited := vis }).1
  have e1 : ({ s with to_visit := tv, visited := vis } : CrawlState).visited = vis := rfl
  rw [e1] at f1
  rw [f1]
  have hb : batch.length ≠ 0 := fun h0 => hbne (List.length_eq_zero.mp h0)
  omega

/-- One loop iteration raises `pages_crawled` by at most the batch size,
which is at most `concurrency`. -/
lemma step_crawled_le {fetch : String → Option PageData × List String}
    {mp c : Nat} {s t : CrawlState}
    (h : Step fetch mp c s t) :
    t.stats.pages_crawled ≤ s.stats.pages_crawled + c := by
  obtain ⟨l, b2, tv, vis, batch, hperm, hsel, hbperm, hbne⟩ := h
  have hlen := selectBatch_len c l s.visited []
  rw [hsel] at hlen
  simp only [List.length_nil] at hlen
  have f4 := (reduceFold_spec mp (b2.map fetch)
    { s with to_visit := tv, visited := vis }).2.2.2.1
  have e3 : ({ s with to_visit := tv, visited := vis } : CrawlState).stats = s.stats := rfl
  rw [e3] at f4
  have hrslen : (b2.map fetch).length = batch.length := by
    rw [List.length_map]
    exact hbperm.length_eq
  rw [hrslen] at f4
  omega

/-- The invariant holds at every state the loop can reach. -/
lemma reaches_inv {fetch : String → Option PageData × List String}
    {mp c : Nat} {s t : CrawlState}
    (h : Reaches fetch mp c s t) (hs : CrawlInv mp s) : CrawlInv mp t := by
  induction h with
  | refl => exact hs
  | step _ _ _ hstep ih => exact step_inv ih hstep

/-- The bound `pages_crawled < max_pages + concurrency` is preserved along every run:
each batch starts only under the loop guard `pages_crawled < max_pages` and
adds at most `concurrency`. -/
lemma reaches_crawled_lt {fetch : String → Option PageData × List String}
    {mp c : Nat} {s t : CrawlState}
    (h : Reaches fetch mp c s t) (h0 : s.stats.pages_crawled < mp + c) :
    t.stats.pages_crawled < mp + c := by
  induction h with
  | refl => exact h0
  | step _ _ hlt hstep _ =>
    have := step_crawled_le hstep
    omega

/-- Fuelled-loop preservation of the invariant. -/
lemma crawlLoop_inv (fetch : String → Option PageData × List String)
    (mp c : Nat) : ∀ (fuel : Nat) (s : CrawlState), CrawlInv mp s →
    CrawlInv mp (crawlLoop fetch mp c fuel s) := by
  intro fuel
  induction fuel with
  | zero =>
    intro s hs
    exact hs
  | succ fuel ih =>
    intro s hs
    rw [crawlLoop]
    by_cases hg : s.to_visit ≠ [] ∧ s.stats.pages_crawled < mp
    · rw [if_pos hg]
      rcases hb : batchStep fetch mp c s with _ | t
      · exact hs
      · exact ih t (step_inv hs (batchStep_some_step hb))
    · rw [if_neg hg]
      exact hs

/-- A `batchStep` returning `none` stops the loop for good. -/
lemma crawlLoop_of_none {fetch : String → Option PageData × List String}
    {mp c : Nat} {s : CrawlState}
    (hb : batchStep fetch mp c s = none) :
    ∀ fuel, crawlLoop fetch mp c fuel s = s := by
  intro fuel
  cases fuel with
  | zero => rfl
  | succ fuel =>
    rw [crawlLoop]
    by_cases hg : s.to_visit ≠ [] ∧ s.stats.pages_crawled < mp
    · rw [if_pos hg, hb]
    · rw [if_neg hg]

/-- A failing loop guard stops the loop for good. -/
lemma crawlLoop_of_guard_false {fetch : String → Option PageData × List String}
    {mp c : Nat} {s : CrawlState}
    (hg : ¬(s.to_visit ≠ [] ∧ s.stats.pages_crawled < mp)) :
    ∀ fuel, crawlLoop fetch mp c fuel s = s := by
  intro fuel
  cases fuel with
  | zero => rfl
  | succ fuel => rw [crawlLoop, if_neg hg]

/-- From a terminal state, extra fuel changes nothing. -/
lemma crawlLoop_of_terminal {fetch : String → Option PageData × List String}
    {mp c : Nat} {s : CrawlState}
    (h : isTerminal fetch mp c s) :
    ∀ fuel, crawlLoop fetch mp c fuel s = s := by
  rcases h with h | h | h
  · exact crawlLoop_of_guard_false (fun hg => hg.1 h)
  · exact crawlLoop_of_guard_false (fun hg => absurd hg.2 (not_lt.mpr h))
  · exact crawlLoop_of_none h

/-- Fuel additivity of the loop. -/
lemma crawlLoop_add (fetch : String → Option PageData × List String)
    (mp c : Nat) : ∀ (f e : Nat) (s : CrawlState),
    crawlLoop fetch mp c (e + f) s
      = crawlLoop fetch mp c e (crawlLoop fetch mp c f s) := by
  intro f
  induction f with
  | zero =>
    intro e s
    rfl
  | succ f ih =>
    intro e s
    have hef : e + (f + 1) = (e + f) + 1 := by omega
    rw [hef, crawlLoop]
    by_cases hg : s.to_visit ≠ [] ∧ s.stats.pages_crawled < mp
    · rw [if_pos hg]
      rcases hb : batchStep fetch mp c s with _ | t
      · have h1 : crawlLoop fetch mp c (f + 1) s = s := by
          rw [crawlLoop, if_pos hg, hb]
        rw [h1]
        exact (crawlLoop_of_none hb e).symm
      · have h1 : crawlLoop fetch mp c (f + 1) s = crawlLoop fetch mp c f t := by
          rw [crawlLoop, if_pos hg, hb]
        rw [h1]
        exact ih e t
    · rw [if_neg hg]
      have h1 : crawlLoop fetch mp c (f + 1) s = s := by
        rw [crawlLoop, if_neg hg]
      rw [h1]
      exact (crawlLoop_of_guard_false hg e).symm

/-- With the invariant and fuel at least `max_pages * 2 - |visited|`, the
loop reaches a terminal state: each iteration grows `visited`, which the
frontier cap bounds by `max_pages * 2`. -/
lemma crawlLoop_terminal (fetch : String → Option PageData × List String)
    (mp c : Nat) (hmp : 1 ≤ mp) :
    ∀ (fuel : Nat) (s : CrawlState), CrawlInv mp s →
      mp * 2 ≤ fuel + s.visited.length →
      isTerminal fetch mp c (crawlLoop fetch mp c fuel s) := by
  intro fuel
  induction fuel with
  | zero =>
    intro s hs hfuel
    have hsum := hs.sumBound
    have htv : s.to_visit.length = 0 := by omega
    exact Or.inl (List.length_eq_zero.mp htv)
  | succ fuel ih =>
    intro s hs hfuel
    rw [crawlLoop]
    by_cases hg : s.to_visit ≠ [] ∧ s.stats.pages_crawled < mp
    · rw [if_pos hg]
      rcases hb : batchStep fetch mp c s with _ | t
      · exact Or.inr (Or.inr hb)
      · have hstep := batchStep_some_step hb
        have hgrow := step_visited_lt hstep
        exact ih t (step_inv hs hstep) (by omega)
    · rw [if_neg hg]
      push_neg at hg
      by_cases htv : s.to_visit = []
      · exact Or.inl htv
      · exact Or.inr (Or.inl (hg htv))

/-- Characters are determined by their code points. -/
lemma char_eq_of_toNat_eq {a b : Char} (h : a.toNat = b.toNat) : a = b :=
  Char.eq_of_val_eq (UInt32.toNat.inj h)

/-- Applying `Char.ofNat` below the surrogate range round-trips through `toNat`. -/
lemma char_toNat_ofNat_small (n : Nat) (h : n < 55296) : (Char.ofNat n).toNat = n := by
  rw [Char.ofNat, dif_pos (Or.inl h)]
  rfl

/-- Code-point description of `Char.toLower`. -/
lemma char_toLower_toNat (c : Char) :
    (Char.toLower c).toNat
      = if 65 ≤ c.toNat ∧ c.toNat ≤ 90 then c.toNat + 32 else c.toNat := by
  simp only [Char.toLower]
  by_cases h : 65 ≤ c.toNat ∧ c.toNat ≤ 90
  · rw [if_pos h, if_pos h]
    exact char_toNat_ofNat_small _ (by omega)
  · rw [if_neg h, if_neg h]

/-- Lowercasing a character twice is the same as once. -/
lemma char_toLower_idem (c : Char) : (Char.toLower c).toLower = Char.toLower c := by
  apply char_eq_of_toNat_eq
  rw [char_toLower_toNat (Char.toLower c), char_toLower_toNat c]
  split_ifs <;> omega

/-- Lowercasing a character neither creates nor destroys a `'/'`. -/
lemma char_toLower_eq_slash (c : Char) : Char.toLower c = '/' ↔ c = '/' := by
  have h47 : ('/' : Char).toNat = 47 := rfl
  constructor
  · intro h
    apply char_eq_of_toNat_eq
    have := char_toLower_toNat c
    rw [h, h47] at this
    rw [h47]
    split_ifs at this <;> omega
  · intro h
    subst h
    rfl

/-- A list is unchanged by `map f` when `f` fixes each of its elements. -/
lemma map_id_of_forall {α : Type} (f : α → α) :
    ∀ l : List α, (∀ x ∈ l, f x = x) → l.map f = l := by
  intro l
  induction l with
  | nil =>
    intro _
    rfl
  | cons a as ih =>
    intro h
    rw [List.map_cons, h a (List.mem_cons_self a as),
      ih (fun x hx => h x (List.mem_cons_of_mem a hx))]

/-- The head surviving a `dropWhile` fails the predicate. -/
lemma dropWhile_head_not {α : Type} (p : α → Bool) :
    ∀ (l : List α) (x : α), (l.dropWhile p).head? = some x → p x = false := by
  intro l
  induction l with
  | nil =>
    intro x h
    exact absurd h (by simp [List.dropWhile])
  | cons a as ih =>
    intro x h
    rw [List.dropWhile_cons] at h
    by_cases hpa : p a
    · rw [if_pos hpa] at h
      exact ih x h
    · rw [if_neg hpa] at h
      rw [List.head?_cons, Option.some.injEq] at h
      subst h
      exact Bool.eq_false_iff.mpr hpa

/-- Applying `dropWhile` is the identity when the head (if any) fails the predicate. -/
lemma dropWhile_eq_self_of_head {α : Type} (p : α → Bool) (l : List α)
    (h : ∀ x, l.head? = some x → p x = false) : l.dropWhile p = l := by
  cases l with
  | nil => rfl
  | cons a as =>
    rw [List.dropWhile_cons, if_neg]
    rw [h a rfl]
    simp

/-- Claim C7 (corrected): on `"http://x//"` the code removes both trailing
slashes (`str.rstrip` strips every trailing separator), while the claimed
single-separator strip would leave `"http://x/"`. -/
theorem normalize_url_single_strip_counterexample :
    normalize_url "http://x//" = "http://x" ∧
    normalizeSingleStrip "http://x//" = "http://x/" ∧
    normalize_url "http://x//" ≠ normalizeSingleStrip "http://x//" := by
  decide

/-- Claim C7 (amended): `normalize_url u` is the lowercased `u` with all
trailing path separators removed — the lowercased input splits as the result
followed by a (possibly empty) run of `'/'`, and the result has no trailing
`'/'` left. -/
theorem normalize_url_strips_all_trailing (u : String) :
    ∃ n : Nat, (strLower u).data = (normalize_url u).data ++ List.replicate n '/' ∧
      (normalize_url u).data.getLast? ≠ some '/' := by
  set p : Char → Bool := fun c => c == '/' with hp
  set r : List Char := (strLower u).data.reverse with hr
  have hdata : (normalize_url u).data = (r.dropWhile p).reverse := rfl
  have hrep : ∃ n, List.takeWhile p r = List.replicate n '/' := by
    refine ⟨(List.takeWhile p r).length, ?_⟩
    apply List.eq_replicate_of_mem
    intro b hb
    have hpb : p b := List.mem_takeWhile_imp hb
    rw [hp] at hpb
    exact eq_of_beq hpb
  obtain ⟨n, hn⟩ := hrep
  refine ⟨n, ?_, ?_⟩
  · calc (strLower u).data = r.reverse := by rw [hr, List.reverse_reverse]
      _ = (List.takeWhile p r ++ List.dropWhile p r).reverse := by
            rw [List.takeWhile_append_dropWhile]
      _ = (List.dropWhile p r).reverse ++ (List.takeWhile p r).reverse := by
            rw [List.reverse_append]
      _ = (normalize_url u).data ++ List.replicate n '/' := by
            rw [hdata, hn, List.reverse_replicate]
  · rw [hdata, List.getLast?_reverse]
    intro hhead
    have := dropWhile_head_not p r '/' hhead
    rw [hp] at this
    simp at this

/-- Claim C8: normalization is idempotent, and the two spelled-out URLs
normalize identically. -/
theorem normalize_url_idem :
    (∀ u : String, normalize_url (normalize_url u) = normalize_url u) ∧
    normalize_url "HTTP://Example.com/Foo/" = normalize_url "http://example.com/foo" := by
  constructor
  · intro u
    set p : Char → Bool := fun c => c == '/' with hp
    set d : List Char := ((strLower u).data.reverse).dropWhile p with hd
    have hdata : (normalize_url u).data = d.reverse := rfl
    have hmem : ∀ x ∈ (normalize_url u).data, Char.toLower x = x := by
      intro x hx
      rw [hdata, List.mem_reverse] at hx
      have hx2 : x ∈ (strLower u).data.reverse := (List.dropWhile_sublist p).mem hx
      rw [List.mem_reverse] at hx2
      have hx3 : x ∈ u.data.map Char.toLower := hx2
      obtain ⟨y, _, hy⟩ := List.mem_map.mp hx3
      rw [← hy]
      exact char_toLower_idem y
    have hlow : strLower (normalize_url u) = normalize_url u := by
      show String.mk ((normalize_url u).data.map Char.toLower) = normalize_url u
      rw [map_id_of_forall Char.toLower (normalize_url u).data hmem]
    show String.mk
        (((strLower (normalize_url u)).data.reverse.dropWhile p).reverse) = normalize_url u
    rw [hlow, hdata, List.reverse_reverse,
      dropWhile_eq_self_of_head p d (fun x hx => dropWhile_head_not p _ x hx), ← hdata]
  · decide

/-- Claim C9: the eligibility filter rejects the image URL and the cart URL
and accepts the blog post, each checked against the site's own domain. -/
theorem is_valid_link_exclusions :
    is_valid_link "https://site.com/img.png" "https://site.com" = false ∧
    is_valid_link "https://site.com/cart" "https://site.com" = false ∧
    is_valid_link "https://site.com/blog/post-1" "https://site.com" = true := by
  decide

/-- Claim C1 (counterexample): with `max_pages = 2` and `concurrency = 2` on
the three-page site, the final batch holds two pages and the run ends with
`pages_crawled = 3 > max_pages`, so `pages_crawled ≤ max_pages` does not hold
at every observation point. -/
theorem crawl_budget_counterexample :
    ¬ (crawl_site branchingFetch "a" 2 2).2.pages_crawled ≤ 2 := by
  decide

/-- Claim C1 (amended): at every observation point
`pages_crawled < max_pages + concurrency` (the loop guard admits a batch only
below `max_pages` and a batch adds at most `concurrency`), and the engine
issues no new batch once `pages_crawled ≥ max_pages`. -/
theorem crawl_budget_amended (fetch : String → Option PageData × List String)
    (mp c : Nat) (u : String) (s : CrawlState) (hmp : 1 ≤ mp)
    (h : Reaches fetch mp c (initState u) s) :
    s.stats.pages_crawled < mp + c ∧
    ∀ (fuel : Nat) (t : CrawlState), mp ≤ t.stats.pages_crawled →
      crawlLoop fetch mp c fuel t = t := by
  constructor
  · refine reaches_crawled_lt h ?_
    show 0 < mp + c
    omega
  · intro fuel t hmp'
    exact crawlLoop_of_guard_false (fun hg => absurd hg.2 (not_lt.mpr hmp')) fuel

/-- Witness for `crawl_budget_amended` at the seeded state. -/
theorem crawl_budget_amended_witness :
    (initState "a").stats.pages_crawled < 1 + 1 :=
  (crawl_budget_amended (fun _ => ((none : Option PageData), ([] : List String)))
    1 1 "a" (initState "a") (by omega) (Reaches.refl _)).1

/-- Claim C2: at every observation point of every run, a URL already moved to
`visited` is not in the pending frontier — no URL is dispatched twice. -/
theorem crawl_no_revisits (fetch : String → Option PageData × List String)
    (mp c : Nat) (u : String) (s : CrawlState)
    (h : Reaches fetch mp c (initState u) s) :
    ∀ v ∈ s.visited, v ∉ s.to_visit :=
  (reaches_inv h (initState_inv mp u)).disj

/-- Witness for `crawl_no_revisits`: one concrete iteration on the three-page
site, after which the dispatched seed is not pending again. -/
theorem crawl_no_revisits_witness :
    "a" ∉ (⟨["a"], ["b"], [⟨"a", 200, "", "", [], []⟩], ⟨1, 0, 0, 2⟩⟩ :
      CrawlState).to_visit :=
  crawl_no_revisits branchingFetch 1 1 "a" _
    (Reaches.step (Reaches.refl _) (by decide) (by decide)
      (batchStep_some_step (by decide)))
    "a" (by decide)

/-- Claim C3: with a positive page budget the batch loop terminates for every
fetch oracle (any link graph, cyclic or infinite): the budgeted fuel
`max_pages * 2` already reaches a terminal state, and any extra fuel leaves
the result unchanged. -/
theorem crawl_site_terminates (fetch : String → Option PageData × List String)
    (u : String) (mp c : Nat) (hmp : 1 ≤ mp) :
    isTerminal fetch mp c (crawlLoop fetch mp c (mp * 2) (initState u)) ∧
    ∀ extra : Nat, crawlLoop fetch mp c (mp * 2 + extra) (initState u)
      = crawlLoop fetch mp c (mp * 2) (initState u) := by
  have hterm := crawlLoop_terminal fetch mp c hmp (mp * 2) (initState u)
    (initState_inv mp u) (by show mp * 2 ≤ mp * 2 + ([] : List String).length; simp)
  refine ⟨hterm, ?_⟩
  intro extra
  rw [Nat.add_comm (mp * 2) extra, crawlLoop_add fetch mp c (mp * 2) extra (initState u)]
  exact crawlLoop_of_terminal hterm extra

/-- Witness for `crawl_site_terminates` at a concrete oracle and budget. -/
theorem crawl_site_terminates_witness :
    isTerminal (fun _ => ((none : Option PageData), ([] : List String))) 1 1
      (crawlLoop (fun _ => ((none : Option PageData), ([] : List String))) 1 1 (1 * 2)
        (initState "a")) :=
  (crawl_site_terminates (fun _ => ((none : Option PageData), ([] : List String)))
    "a" 1 1 (by omega)).1

/-- Claim C4: at every observation point
`|pending| + |visited| < 2 * max_pages + concurrency`, and a link list adds
nothing to the frontier once `|pending| + |visited| < max_pages * 2` fails. -/
theorem crawl_frontier_bound (fetch : String → Option PageData × List String)
    (mp c : Nat) (u : String) (s : CrawlState)
    (hmp : 1 ≤ mp) (hc : 1 ≤ c) (h : Reaches fetch mp c (initState u) s) :
    s.to_visit.length + s.visited.length < 2 * mp + c ∧
    ∀ (vis tv links : List String), mp * 2 ≤ tv.length + vis.length →
      links.foldl (addLink mp vis) tv = tv := by
  constructor
  · have hsum := (reaches_inv h (initState_inv mp u)).sumBound
    omega
  · intro vis tv links hcap
    exact addLinks_cap mp vis links tv hcap

/-- Witness for `crawl_frontier_bound` at the seeded state. -/
theorem crawl_frontier_bound_witness :
    (initState "a").to_visit.length + (initState "a").visited.length < 2 * 1 + 1 :=
  (crawl_frontier_bound (fun _ => ((none : Option PageData), ([] : List String)))
    1 1 "a" (initState "a") (by omega) (by omega) (Reaches.refl _)).1

/-- Claim C6: the run is surfaced as a run-level failure exactly when zero
pages were successfully crawled — the result list is empty iff the
`pages_crawled` counter is zero (individual failures only bump
`pages_filtered` and never abort the loop). -/
theorem crawl_zero_pages_run_failure (fetch : String → Option PageData × List String)
    (u : String) (mp c : Nat) :
    crawl_run_fails (crawl_site fetch u mp c) = true ↔
      (crawl_site fetch u mp c).2.pages_crawled = 0 := by
  have hres := (crawlLoop_inv fetch mp c (mp * 2) (initState u) (initState_inv mp u)).resLen
  show (crawlLoop fetch mp c (mp * 2) (initState u)).results.isEmpty = true ↔
    (crawlLoop fetch mp c (mp * 2) (initState u)).stats.pages_crawled = 0
  rw [← hres, List.isEmpty_iff, List.length_eq_zero]

/-- Claim C10: on every run `pages_failed` stays `0`, and every dispatched
URL is accounted for in `pages_crawled + pages_filtered` (so unsuccessful
fetches are counted as filtered, never as failed). -/
theorem crawl_pages_failed_zero (fetch : String → Option PageData × List String)
    (mp c : Nat) (u : String) (s : CrawlState)
    (h : Reaches fetch mp c (initState u) s) :
    s.stats.pages_failed = 0 ∧
    s.stats.pages_crawled + s.stats.pages_filtered = s.visited.length := by
  have hinv := reaches_inv h (initState_inv mp u)
  exact ⟨hinv.failedZero, hinv.counts⟩

/-- Witness for `crawl_pages_failed_zero`: after one concrete iteration whose
only fetch fails at transport level, the failure shows up in
`pages_filtered` while `pages_failed` is still zero. -/
theorem crawl_pages_failed_zero_witness :
    (⟨["a"], [], [], ⟨0, 0, 1, 0⟩⟩ : CrawlState).stats.pages_failed = 0 ∧
    (⟨["a"], [], [], ⟨0, 0, 1, 0⟩⟩ : CrawlState).stats.pages_crawled +
        (⟨["a"], [], [], ⟨0, 0, 1, 0⟩⟩ : CrawlState).stats.pages_filtered
      = (⟨["a"], [], [], ⟨0, 0, 1, 0⟩⟩ : CrawlState).visited.length :=
  crawl_pages_failed_zero (fun _ => ((none : Option PageData), ([] : List String)))
    1 1 "a" _
    (Reaches.step (Reaches.refl _) (by decide) (by decide)
      (batchStep_some_step (by decide)))

/-- Claim C5: `fetch_page` yields `(absent, [])` exactly when the transport
fails or the response is not HTML; an HTML response — whatever its status
code — yields a record carrying that status code. -/
theorem fetch_page_absent_iff (resolve : String → String → String)
    (url domain : String) (response : Option HttpResponse) :
    (fetch_page resolve url domain response
        = ((none : Option PageData), ([] : List String)) ↔
      (response = none ∨ ∃ r : HttpResponse, response = some r ∧
        substrB "text/html" r.content_type = false)) ∧
    (∀ r : HttpResponse, response = some r →
      substrB "text/html" r.content_type = true →
      ∃ p : PageData, (fetch_page resolve url domain response).1 = some p ∧
        p.status_code = r.status_code) := by
  constructor
  · cases response with
    | none => simp [fetch_page]
    | some r =>
      simp only [fetch_page]
      by_cases hct : substrB "text/html" r.content_type
      · rw [if_pos hct]
        simp [hct]
      · rw [if_neg hct]
        simp only [Bool.not_eq_true] at hct
        simp [hct]
  · intro r hr hct
    subst hr
    simp only [fetch_page]
    rw [if_pos hct]
    exact ⟨_, rfl, rfl⟩

/-- Witness for `fetch_page_absent_iff`: a 404 HTML response still yields a
page record with status code 404. -/
theorem fetch_page_absent_iff_witness :
    ∃ p : PageData,
      (fetch_page (fun _ href => href) "https://a.com" "https://a.com"
        (some ⟨404, "text/html; charset=utf-8", ⟨none, [], [], [], []⟩⟩)).1 = some p ∧
      p.status_code = 404 :=
  (fetch_page_absent_iff (fun _ href => href) "https://a.com" "https://a.com"
    (some ⟨404, "text/html; charset=utf-8", ⟨none, [], [], [], []⟩⟩)).2
    ⟨404, "text/html; charset=utf-8", ⟨none, [], [], [], []⟩⟩ rfl (by decide)

end DataDiver
